import Mathlib

/-!
Verification development for the stdb time-series engine.

The definitions below shallowly embed the column-store layer of the
repository: `ColumnStore::write`, `ColumnStore::recovery_write`,
`CStoreSession::write` and the `iterate`-based read operations from
`src/stdb/storage/column_store.{h,cc}`, the scoped lock guards from
`src/stdb/common/rwlock.h`, and the OpenTSDB timestamp handling from
`src/stdb/protocol/protocolparser.cc`.  Components of the repository that
are referenced but whose sources are not part of the tree (the NB+tree
extents list, the query executor, the WAL eviction machinery) are modelled
from the specification, as indicated by their doc comments.
-/

namespace Stdb

/-- Completion status codes of `common::Status`.  Modelled from the spec:
`src/stdb/common/status.h` is not among the sources; the spec enumerates the
codes `Ok, BadArg, BadData, NotFound, Overflow, QueryParsingError, DBError,
Cancelled` plus `IOError`. -/
inductive Status where
  | ok
  | badArg
  | badData
  | notFound
  | overflow
  | queryParsingError
  | dbError
  | cancelled
  | ioError
deriving DecidableEq

/-- Result codes of `NBTreeExtentsList::append`.  Modelled from the spec:
`src/stdb/storage/nbtree.h` is not among the sources; the spec lists
`{OK, OK_FLUSH_NEEDED, FAIL_BAD_VALUE, FAIL_BAD_ID}`. -/
inductive NBTreeAppendResult where
  | OK
  | OK_FLUSH_NEEDED
  | FAIL_BAD_VALUE
  | FAIL_BAD_ID
deriving DecidableEq

/-- Payload type tag of a `Sample`.  The sources compare `payload.type`
against the constants `PAYLOAD_FLOAT` and `PAYLOAD_EVENT` (defined in the
absent `stdb/common/basic.h`); any other code falls through, so the tag is
modelled as an inductive with a catch-all constructor. -/
inductive PayloadType where
  | float
  | event
  | other (code : Nat)
deriving DecidableEq

/-- Sample payload.  In the sources the payload is a union: `float64`
aliases the same bytes as the event data.  The model carries both fields;
for a float sample `data` is irrelevant and for an event sample `float64`
holds whatever bits the union access would read.  Values are modelled as
integers (the repository's tests only exercise integral doubles). -/
structure Payload where
  type : PayloadType
  float64 : Int
  data : List Nat
deriving DecidableEq

/-- A sample record `(series id, timestamp, payload)` as in the spec's data
model. -/
structure Sample where
  paramid : Nat
  timestamp : Nat
  payload : Payload
deriving DecidableEq

/-- Modelled from the spec: the per-series NB+tree extents list
(`src/stdb/storage/nbtree.{h,cc}` is not among the sources).  The model
keeps the appended numeric points and event blobs in append order, the
number of entries in the currently open leaf block, and the number of leaf
blocks sealed so far.  `leafCap` is the leaf block capacity. -/
structure NBTree where
  id : Nat
  leafCap : Nat
  numeric : List (Nat × Int)
  events : List (Nat × List Nat)
  openCnt : Nat
  sealedCnt : Nat
deriving DecidableEq

/-- All timestamps stored in a tree, in append order. -/
def NBTree.tsList (t : NBTree) : List Nat :=
  t.numeric.map Prod.fst ++ t.events.map Prod.fst

/-- Whether an append at timestamp `ts` violates the ordering contract:
true iff `ts` is strictly below some already-stored timestamp (the spec's
ordering contract rejects strictly-lower timestamps in normal mode). -/
def NBTree.rejects (t : NBTree) (ts : Nat) : Bool :=
  t.tsList.any (fun u => decide (ts < u))

/-- Modelled from the spec: `NBTreeExtentsList::get_roots` returns the
rescue-point list (current top addresses).  The addresses themselves are
abstracted; the list changes exactly when a new block is sealed. -/
def NBTree.get_roots (t : NBTree) : List Nat :=
  [t.sealedCnt]

/-- Modelled from the spec: `NBTreeExtentsList::append(ts, value)` for
numeric values.  A strictly-lower timestamp returns `FAIL_BAD_VALUE`
unless `allowDup` is set (the permissive recovery path); otherwise the
point is appended and, when the open leaf block fills up, the block is
sealed and `OK_FLUSH_NEEDED` is returned. -/
def NBTree.append (t : NBTree) (ts : Nat) (v : Int) (allowDup : Bool) :
    NBTree × NBTreeAppendResult :=
  if !allowDup && t.rejects ts then
    (t, NBTreeAppendResult.FAIL_BAD_VALUE)
  else if t.openCnt + 1 == t.leafCap then
    ({ t with numeric := t.numeric ++ [(ts, v)], openCnt := 0,
              sealedCnt := t.sealedCnt + 1 },
     NBTreeAppendResult.OK_FLUSH_NEEDED)
  else
    ({ t with numeric := t.numeric ++ [(ts, v)], openCnt := t.openCnt + 1 },
     NBTreeAppendResult.OK)

/-- Modelled from the spec: `NBTreeExtentsList::append(ts, blob)` for event
payloads; same sealing behaviour as the numeric append. -/
def NBTree.append_event (t : NBTree) (ts : Nat) (d : List Nat) (allowDup : Bool) :
    NBTree × NBTreeAppendResult :=
  if !allowDup && t.rejects ts then
    (t, NBTreeAppendResult.FAIL_BAD_VALUE)
  else if t.openCnt + 1 == t.leafCap then
    ({ t with events := t.events ++ [(ts, d)], openCnt := 0,
              sealedCnt := t.sealedCnt + 1 },
     NBTreeAppendResult.OK_FLUSH_NEEDED)
  else
    ({ t with events := t.events ++ [(ts, d)], openCnt := t.openCnt + 1 },
     NBTreeAppendResult.OK)

/-- Modelled from the spec: `NBTreeExtentsList::search(begin, end)` over the
numeric points: ascending when `begin < end` over the half-open interval
`[begin, end)`, descending when `begin > end` over `(end, begin]`; empty
when `begin = end`.  The stored points are kept in append order, which the
append contract keeps non-decreasing in timestamp. -/
def NBTree.search (t : NBTree) (b e : Nat) : List (Nat × Int) :=
  if b < e then
    t.numeric.filter (fun p => decide (b ≤ p.1 ∧ p.1 < e))
  else
    (t.numeric.filter (fun p => decide (e < p.1 ∧ p.1 ≤ b))).reverse

/-- Aggregate record of one range or bucket, with the fields the spec lists
for `aggregate`: `{cnt, min, min_ts, max, max_ts, sum, first, last}`. -/
structure AggregationResult where
  cnt : Nat
  vmin : Int
  min_ts : Nat
  vmax : Int
  max_ts : Nat
  sum : Int
  first : Int
  last : Int
deriving DecidableEq

/-- Aggregate containing a single point. -/
def AggregationResult.single (ts : Nat) (v : Int) : AggregationResult :=
  ⟨1, v, ts, v, ts, v, v, v⟩

/-- Fold one more point into an aggregate. -/
def AggregationResult.add (a : AggregationResult) (ts : Nat) (v : Int) :
    AggregationResult where
  cnt := a.cnt + 1
  vmin := Min.min a.vmin v
  min_ts := if v < a.vmin then ts else a.min_ts
  vmax := Max.max a.vmax v
  max_ts := if a.vmax < v then ts else a.max_ts
  sum := a.sum + v
  first := a.first
  last := v

/-- Straightforward fold of a point list into an aggregate record; `none`
for the empty list. -/
def aggregateSamples (xs : List (Nat × Int)) : Option AggregationResult :=
  xs.foldl
    (fun acc p =>
      match acc with
      | none => some (AggregationResult.single p.1 p.2)
      | some a => some (a.add p.1 p.2))
    none

/-- Modelled from the spec: `NBTreeExtentsList::group_aggregate(begin, end,
step)` for an ascending range.  `src/stdb/storage/nbtree.cc` is not among
the sources; the bucket anchoring follows the repository's own test
`Test_storage_group_aggregate_query_0` and the spec's literal scenario S5
(range `[100000, 10100000)`, step `4000000`, buckets at `100000`,
`4100000`, `8100000`): the k-th bucket starts at `begin + k*step`, covers
`[begin + k*step, begin + (k+1)*step) ∩ [begin, end)`, and empty buckets
produce no output.  The number of candidate buckets is
`ceil((end - begin) / step)`. -/
def NBTree.group_aggregate (t : NBTree) (b e step : Nat) :
    List (Nat × AggregationResult) :=
  (List.range ((e - b + step - 1) / step)).filterMap
    (fun k =>
      let lo := b + k * step
      let hi := Min.min (lo + step) e
      match aggregateSamples
          (t.numeric.filter (fun p => decide (lo ≤ p.1 ∧ p.1 < hi))) with
      | none => none
      | some a => some (lo, a))

/-- Value filter bitmap with numeric bounds, from the spec:
`{GT, LT, GE, LE}` combined with AND.  Bit 0 = GT, bit 1 = LT, bit 2 = GE,
bit 3 = LE; `mask = 0` means no filtering. -/
structure ValueFilter where
  mask : Nat
  gt : Int
  lt : Int
  ge : Int
  le : Int
deriving DecidableEq

/-- Whether a value passes all bounds enabled in the filter mask. -/
def ValueFilter.pass (f : ValueFilter) (v : Int) : Bool :=
  (!f.mask.testBit 0 || decide (f.gt < v)) &&
  (!f.mask.testBit 1 || decide (v < f.lt)) &&
  (!f.mask.testBit 2 || decide (f.ge ≤ v)) &&
  (!f.mask.testBit 3 || decide (v ≤ f.le))

/-- Aggregate filter, from the spec: `group_aggregate_filter` filters
completed buckets by a selected field; `bitmap = 0` means no filtering.
The field selection is abstracted to the bucket minimum, which is the only
component the sources exercise. -/
structure AggregateFilter where
  bitmap : Nat
  flt : ValueFilter
deriving DecidableEq

/-- Whether a completed bucket passes the aggregate filter. -/
def AggregateFilter.pass (f : AggregateFilter) (a : AggregationResult) : Bool :=
  f.flt.pass a.vmin

/-- The column table of the `ColumnStore`: series id to NB+tree, modelled
as an association list (`columns_` in `src/stdb/storage/column_store.h`). -/
abbrev Columns := List (Nat × NBTree)

/-- Association-list lookup (`std::unordered_map::find`). -/
def findAssoc {α : Type} : List (Nat × α) → Nat → Option α
  | [], _ => none
  | (k, v) :: rest, id => if k == id then some v else findAssoc rest id

/-- Column lookup by series id (`columns_.find(id)`). -/
def findColumn (cs : Columns) (id : Nat) : Option NBTree :=
  findAssoc cs id

/-- Replace the tree stored under `id` (the sources mutate the tree through
a shared pointer; the functional model rebinds the key). -/
def updateColumn : Columns → Nat → NBTree → Columns
  | [], _, _ => []
  | (k, u) :: rest, id, t =>
    if k == id then (k, t) :: rest else (k, u) :: updateColumn rest id t

/-- Insert-if-absent for the session cache (`std::unordered_map::insert`
does not overwrite an existing key).  The cache holds shared handles into
the column table, so the model keeps only the cached ids. -/
def cacheInsert (c : List Nat) (id : Nat) : List Nat :=
  if id ∈ c then c else c ++ [id]

/-- Result of `ColumnStore::write`: the append result together with the
updated column table, the `rescue_points` output vector and the optional
session cache (`cache_or_null`). -/
structure WriteOutcome where
  res : NBTreeAppendResult
  columns : Columns
  rescue_points : List Nat
  cache : Option (List Nat)
deriving DecidableEq

/-- `ColumnStore::write` from `src/stdb/storage/column_store.cc` lines
127-156: look up the sample's column; if absent return `FAIL_BAD_ID`
leaving everything unchanged.  Otherwise dispatch on the payload type
(float append, event append, or no append at all for any other type, with
the result defaulting to `OK`); on `OK_FLUSH_NEEDED` overwrite
`rescue_points` with the tree's new root list; finally insert the tree
into the session cache when one was supplied. -/
def ColumnStore.write (cs : Columns) (sample : Sample)
    (rescue_points : List Nat) (cache : Option (List Nat)) : WriteOutcome :=
  match findColumn cs sample.paramid with
  | none => ⟨NBTreeAppendResult.FAIL_BAD_ID, cs, rescue_points, cache⟩
  | some tree =>
    let step :=
      match sample.payload.type with
      | PayloadType.float =>
        tree.append sample.timestamp sample.payload.float64 false
      | PayloadType.event =>
        tree.append_event sample.timestamp sample.payload.data false
      | PayloadType.other _ => (tree, NBTreeAppendResult.OK)
    let rp :=
      if step.2 == NBTreeAppendResult.OK_FLUSH_NEEDED then step.1.get_roots
      else rescue_points
    ⟨step.2, updateColumn cs sample.paramid step.1, rp,
     cache.map (fun c => cacheInsert c sample.paramid)⟩

/-- `ColumnStore::recovery_write` from `src/stdb/storage/column_store.cc`
lines 158-167: look up the column and, regardless of the payload type,
append `sample.payload.float64` through the permissive numeric append. -/
def ColumnStore.recovery_write (cs : Columns) (sample : Sample)
    (allow_duplicates : Bool) : NBTreeAppendResult × Columns :=
  match findColumn cs sample.paramid with
  | none => (NBTreeAppendResult.FAIL_BAD_ID, cs)
  | some tree =>
    let step := tree.append sample.timestamp sample.payload.float64 allow_duplicates
    (step.2, updateColumn cs sample.paramid step.1)

/-- The state a `CStoreSession` operates on: the shared column table and the
session's tree cache (`cache_`).  In the sources the cache holds shared
pointers into the store's table, so the model records only the cached ids
and resolves them through the table. -/
structure SessionState where
  columns : Columns
  cache : List Nat
deriving DecidableEq

/-- Result of `CStoreSession::write`. -/
structure SessionWriteOutcome where
  res : NBTreeAppendResult
  state : SessionState
  rescue_points : List Nat
deriving DecidableEq

/-- `CStoreSession::write` from `src/stdb/storage/column_store.cc` lines
172-203: dispatch on the payload type.  For a float payload, a cache hit
appends directly to the cached tree (filling `rescue_points` on
`OK_FLUSH_NEEDED`); a cache miss goes through `ColumnStore::write`, which
also populates the cache.  The event branch is analogous.  Any other
payload type returns `FAIL_BAD_VALUE` without touching anything.  A cached
id always resolves in the table in the sources (the cache holds shared
pointers); the unreachable dangling case falls back to the store write. -/
def CStoreSession.write (st : SessionState) (sample : Sample)
    (rescue_points : List Nat) : SessionWriteOutcome :=
  match sample.payload.type with
  | PayloadType.float =>
    match if st.cache.contains sample.paramid then findColumn st.columns sample.paramid
          else none with
    | some tree =>
      let step := tree.append sample.timestamp sample.payload.float64 false
      let rp :=
        if step.2 == NBTreeAppendResult.OK_FLUSH_NEEDED then step.1.get_roots
        else rescue_points
      ⟨step.2, ⟨updateColumn st.columns sample.paramid step.1, st.cache⟩, rp⟩
    | none =>
      let o := ColumnStore.write st.columns sample rescue_points (some st.cache)
      ⟨o.res, ⟨o.columns, o.cache.getD st.cache⟩, o.rescue_points⟩
  | PayloadType.event =>
    match if st.cache.contains sample.paramid then findColumn st.columns sample.paramid
          else none with
    | some tree =>
      let step := tree.append_event sample.timestamp sample.payload.data false
      let rp :=
        if step.2 == NBTreeAppendResult.OK_FLUSH_NEEDED then step.1.get_roots
        else rescue_points
      ⟨step.2, ⟨updateColumn st.columns sample.paramid step.1, st.cache⟩, rp⟩
    | none =>
      let o := ColumnStore.write st.columns sample rescue_points (some st.cache)
      ⟨o.res, ⟨o.columns, o.cache.getD st.cache⟩, o.rescue_points⟩
  | PayloadType.other _ =>
    ⟨NBTreeAppendResult.FAIL_BAD_VALUE, st, rescue_points⟩

/-- `ColumnStore::iterate` from `src/stdb/storage/column_store.h` lines
109-132: walk the ordered id list; a missing id stops the loop with
`NotFound`, a failing per-id constructor stops it with that error, and
operators built for earlier ids stay in the destination vector.  The
operator type is generic, as in the C++ template; an operator is
represented by the sample stream it produces. -/
def ColumnStore.iterate {Op : Type} (cs : Columns) (ids : List Nat)
    (fn : NBTree → Except Status Op) : Status × List Op :=
  match ids with
  | [] => (Status.ok, [])
  | id :: rest =>
    match findColumn cs id with
    | none => (Status.notFound, [])
    | some t =>
      match fn t with
      | Except.error s => (s, [])
      | Except.ok op =>
        let tail := ColumnStore.iterate cs rest fn
        (tail.1, op :: tail.2)

/-- `ColumnStore::scan`: one `search` operator per id. -/
def ColumnStore.scan (cs : Columns) (ids : List Nat) (b e : Nat) :
    Status × List (List (Nat × Int)) :=
  ColumnStore.iterate cs ids (fun t => Except.ok (t.search b e))

/-- Event search, modelled from the spec like `NBTree.search` but over the
event blobs (`NBTreeExtentsList::search_binary`). -/
def NBTree.search_binary (t : NBTree) (b e : Nat) : List (Nat × List Nat) :=
  if b < e then
    t.events.filter (fun p => decide (b ≤ p.1 ∧ p.1 < e))
  else
    (t.events.filter (fun p => decide (e < p.1 ∧ p.1 ≤ b))).reverse

/-- `ColumnStore::scan_events`: one binary search operator per id. -/
def ColumnStore.scan_events (cs : Columns) (ids : List Nat) (b e : Nat) :
    Status × List (List (Nat × List Nat)) :=
  ColumnStore.iterate cs ids (fun t => Except.ok (t.search_binary b e))

/-- `ColumnStore::filter_events`: binary search with a body filter; the
regex match over the event body is abstracted to an arbitrary predicate on
the blob (`NBTreeExtentsList::filter_binary` is not among the sources). -/
def ColumnStore.filter_events (cs : Columns) (ids : List Nat) (b e : Nat)
    (expr : List Nat → Bool) : Status × List (List (Nat × List Nat)) :=
  ColumnStore.iterate cs ids
    (fun t => Except.ok ((t.search_binary b e).filter (fun p => expr p.2)))

/-- `ColumnStore::filter` from `src/stdb/storage/column_store.h` lines
162-179: per id, look up the value filter keyed by the column's id; a
missing entry is an error (`BadArg`), a zero mask degrades to a plain
search, otherwise the search stream is filtered by the value predicate. -/
def ColumnStore.filter (cs : Columns) (ids : List Nat) (b e : Nat)
    (filters : List (Nat × ValueFilter)) :
    Status × List (List (Nat × Int)) :=
  ColumnStore.iterate cs ids
    (fun t =>
      match findAssoc filters t.id with
      | some flt =>
        if flt.mask ≠ 0 then
          Except.ok ((t.search b e).filter (fun p => flt.pass p.2))
        else
          Except.ok (t.search b e)
      | none => Except.error Status.badArg)

/-- `ColumnStore::aggregate`: one full-range aggregate operator per id. -/
def ColumnStore.aggregate (cs : Columns) (ids : List Nat) (b e : Nat) :
    Status × List (Option AggregationResult) :=
  ColumnStore.iterate cs ids
    (fun t => Except.ok (aggregateSamples (t.search b e)))

/-- `ColumnStore::group_aggregate`: one bucketed aggregate operator per
id. -/
def ColumnStore.group_aggregate (cs : Columns) (ids : List Nat)
    (b e step : Nat) : Status × List (List (Nat × AggregationResult)) :=
  ColumnStore.iterate cs ids (fun t => Except.ok (t.group_aggregate b e step))

/-- `ColumnStore::group_aggfilter` from `src/stdb/storage/column_store.h`
lines 200-218: like `filter` but over bucketed aggregates, keyed by
`AggregateFilter`; a missing entry is `BadArg`, a zero bitmap degrades to
the plain group-aggregate. -/
def ColumnStore.group_aggfilter (cs : Columns) (ids : List Nat)
    (b e step : Nat) (filters : List (Nat × AggregateFilter)) :
    Status × List (List (Nat × AggregationResult)) :=
  ColumnStore.iterate cs ids
    (fun t =>
      match findAssoc filters t.id with
      | some flt =>
        if flt.bitmap ≠ 0 then
          Except.ok ((t.group_aggregate b e step).filter (fun p => flt.pass p.2))
        else
          Except.ok (t.group_aggregate b e step)
      | none => Except.error Status.badArg)

/-- State of the reader-writer lock of `src/stdb/common/rwlock.h`,
modelled as the abstract pthread rwlock state: the number of active
readers and whether a writer holds the lock. -/
structure RWLockState where
  readers : Nat
  writer : Bool
deriving DecidableEq

/-- `RWLock::rdlock`: acquire shared; blocks (returns `none`) while a
writer holds the lock. -/
def RWLock.rdlock (st : RWLockState) : Option RWLockState :=
  if st.writer then none else some ⟨st.readers + 1, false⟩

/-- `RWLock::wrlock`: acquire exclusive; blocks (returns `none`) while any
reader or writer holds the lock. -/
def RWLock.wrlock (st : RWLockState) : Option RWLockState :=
  if st.writer || st.readers != 0 then none else some ⟨0, true⟩

/-- The scoped guard template `LockGuard<RWLock, on_enter>` of
`src/stdb/common/rwlock.h`: it is characterized by the acquisition
operation invoked on construction. -/
structure LockGuard where
  on_enter : RWLockState → Option RWLockState

/-- `using UniqueLock = LockGuard<RWLock, &RWLock::wrlock>`
(`src/stdb/common/rwlock.h` line 55). -/
def UniqueLock : LockGuard := ⟨RWLock.wrlock⟩

/-- `using SharedLock = LockGuard<RWLock, &RWLock::wrlock>`
(`src/stdb/common/rwlock.h` line 56). -/
def SharedLock : LockGuard := ⟨RWLock.wrlock⟩

/-- `using ReadLockGuard = LockGuard<RWLock, &RWLock::rdlock>`
(`src/stdb/common/rwlock.h` line 57). -/
def ReadLockGuard : LockGuard := ⟨RWLock.rdlock⟩

/-- `using WriteLockGuard = LockGuard<RWLock, &RWLock::wrlock>`
(`src/stdb/common/rwlock.h` line 58). -/
def WriteLockGuard : LockGuard := ⟨RWLock.wrlock⟩

/-- `strtoull` over a base-10 token, as used on the OpenTSDB timestamp
field (`src/stdb/protocol/protocolparser.cc` line 869): `some n` when the
token is a non-empty digit string, `none` otherwise (a non-numeric token
makes `strtoull` return 0, which the caller treats as a parse failure). -/
def parseDigits (token : List Char) : Option Nat :=
  if token ≠ [] ∧ token.all Char.isDigit then
    some (token.foldl (fun acc c => acc * 10 + (c.toNat - 48)) 0)
  else
    none

/-- `from_unix_time` from `src/stdb/protocol/protocolparser.cc` lines
761-767: seconds since epoch to nanoseconds since epoch (boost computes
the duration from the epoch in nanoseconds). -/
def from_unix_time (sec : Nat) : Nat :=
  sec * 1000000000

/-- Outcome of the timestamp handling of an OpenTSDB `put` line. -/
inductive TsDecision where
  | nanos (t : Nat)
  | isoFallback
deriving DecidableEq

/-- Timestamp handling of `OpenTSDBProtocolParser::worker`
(`src/stdb/protocol/protocolparser.cc` lines 863-899): run `strtoull` on
the token; a zero result falls back to ISO-8601 parsing; a nonzero result
strictly below `0xFFFFFFFF` is treated as seconds since epoch and
upconverted by `from_unix_time`, anything else is used unchanged as a
nanosecond timestamp. -/
def opentsdb_put_timestamp (token : List Char) : TsDecision :=
  match parseDigits token with
  | none => TsDecision.isoFallback
  | some n =>
    if n == 0 then TsDecision.isoFallback
    else if n < 0xFFFFFFFF then TsDecision.nanos (from_unix_time n)
    else TsDecision.nanos n

/-- Events observed by an `InternalCursor`: pushed samples, completion, or
an error report. -/
inductive CursorEvent where
  | put (s : Sample)
  | complete
  | setError (st : Status)
deriving DecidableEq

/-- Whether a cursor event terminates the query. -/
def CursorEvent.isTerminal : CursorEvent → Bool
  | CursorEvent.put _ => false
  | CursorEvent.complete => true
  | CursorEvent.setError _ => true

/-- Modelled from the spec: the query engine's push loop
(`qp::ScanQueryProcessor` of `src/stdb/query/queryprocessor.h`; its
implementation and the executor driving it are not among the sources).
The operator pipeline is abstracted to the finite list of batch results it
yields: each batch either delivers samples, which are pushed with `put`,
or fails with a status (including `Cancelled` for the per-query cancel
flag).  Exhaustion calls `complete`; the first failure calls `set_error`
and stops. -/
def runQuery : List (Except Status (List Sample)) → List CursorEvent
  | [] => [CursorEvent.complete]
  | Except.ok batch :: rest => batch.map CursorEvent.put ++ runQuery rest
  | Except.error st :: _ => [CursorEvent.setError st]

/-- Events of the write-amplification workload of
`test_wal_write_amplification_impact`: a write to a series, or a flush
barrier at which the storage evicts inactive series. -/
inductive WalEvent where
  | write (id : Nat)
  | evict
deriving DecidableEq

/-- The ids written by a workload, in order. -/
def writesOf (evs : List WalEvent) : List Nat :=
  evs.filterMap
    (fun ev =>
      match ev with
      | WalEvent.write id => some id
      | WalEvent.evict => none)

/-- Distinct-id accumulator: fold a list of written ids into an
open-series list without duplicates. -/
def foldIns (opened : List Nat) (ids : List Nat) : List Nat :=
  ids.foldl cacheInsert opened

/-- Modelled from the spec: the number of block-store appends performed by
a workload (§4.5 write-amplification contract; the `Storage`/input-log
eviction machinery is not among the sources).  A write opens the series'
tree; when the WAL is enabled every flush barrier evicts the open trees,
each eviction flushing one block to the block store; when the WAL is
disabled trees stay in memory across barriers.  Closing the store at the
end flushes each still-open tree once. -/
def runAppends (wal : Bool) : List WalEvent → List Nat → Nat
  | [], opened => opened.length
  | WalEvent.write id :: rest, opened => runAppends wal rest (cacheInsert opened id)
  | WalEvent.evict :: rest, opened =>
    if wal then opened.length + runAppends wal rest []
    else runAppends wal rest opened

/-- Total block-store appends of a workload, starting from an empty
working set. -/
def blockAppends (wal : Bool) (evs : List WalEvent) : Nat :=
  runAppends wal evs []

/-- The series cardinality of a workload: the number of distinct ids
written. -/
def cardinality (evs : List WalEvent) : Nat :=
  (foldIns [] (writesOf evs)).length

/-! ### Concrete fixtures used by counterexamples and witnesses -/

/-- A column holding one numeric point at timestamp 1. -/
def T0 : NBTree := ⟨7, 100, [(1, 10)], [], 1, 0⟩

/-- A column table holding `T0` under id 7. -/
def CS0 : Columns := [(7, T0)]

/-- A sample whose payload type is neither `PAYLOAD_FLOAT` nor
`PAYLOAD_EVENT`. -/
def SOther : Sample := ⟨7, 9, ⟨PayloadType.other 3, 0, []⟩⟩

/-- An event sample carrying the blob `[1, 2, 3]`; the `float64` union
field aliases the value 42. -/
def SEvent : Sample := ⟨7, 9, ⟨PayloadType.event, 42, [1, 2, 3]⟩⟩

/-- The column of the group-aggregate counterexample: a single point at
timestamp 100000, the first write of the repository's test
`Test_storage_group_aggregate_query_0`. -/
def CT4 : NBTree := ⟨1, 0, [(100000, 1000)], [], 0, 0⟩

/-- Fifteen points of the `Test_storage_group_aggregate_query_0` data set
(`ts = 100000 + 1000 i`, `value = 1000 + 10 i` for
`i ∈ {0..4} ∪ {4000..4004} ∪ {8000..8004}`), five inside each of the three
buckets of the queried range. -/
def CT4F : NBTree :=
  ⟨1, 0,
   ((List.range 5 ++ (List.range 5).map (· + 4000) ++
     (List.range 5).map (· + 8000)).map
     (fun i => (100000 + 1000 * i, (1000 : Int) + 10 * i))), [], 0, 0⟩

/-! ### Helper lemmas -/

/-- A successful column lookup produces an entry of the table. -/
theorem findColumn_mem {cs : Columns} {id : Nat} {t : NBTree}
    (h : findColumn cs id = some t) : (id, t) ∈ cs := by
  induction cs with
  | nil => simp [findColumn, findAssoc] at h
  | cons hd tl ih =>
    obtain ⟨k, u⟩ := hd
    by_cases hk : k = id
    · subst hk
      simp [findColumn, findAssoc] at h
      subst h
      exact List.mem_cons_self _ _
    · have hk' : (k == id) = false := beq_false_of_ne hk
      simp [findColumn, findAssoc, hk'] at h ⊢
      exact Or.inr (ih h)

/-- Updating an existing key rebinds it. -/
theorem findColumn_updateColumn {cs : Columns} {id : Nat} {t : NBTree}
    (t' : NBTree) (h : findColumn cs id = some t) :
    findColumn (updateColumn cs id t') id = some t' := by
  induction cs with
  | nil => simp [findColumn, findAssoc] at h
  | cons hd tl ih =>
    obtain ⟨k, u⟩ := hd
    by_cases hk : k = id
    · subst hk
      simp [findColumn, findAssoc, updateColumn]
    · have hk' : (k == id) = false := beq_false_of_ne hk
      simp [findColumn, findAssoc, updateColumn, hk'] at h ⊢
      exact ih h

/-- The numeric append leaves the tree unchanged exactly on
`FAIL_BAD_VALUE`, otherwise appends the point; it never reports
`FAIL_BAD_ID`. -/
theorem NBTree.append_cases (t : NBTree) (ts : Nat) (v : Int) (d : Bool) :
    ((t.append ts v d).2 = NBTreeAppendResult.FAIL_BAD_VALUE →
      (t.append ts v d).1 = t) ∧
    ((t.append ts v d).2 ≠ NBTreeAppendResult.FAIL_BAD_VALUE →
      (t.append ts v d).1.numeric = t.numeric ++ [(ts, v)] ∧
      (t.append ts v d).1.events = t.events) ∧
    (t.append ts v d).2 ≠ NBTreeAppendResult.FAIL_BAD_ID := by
  unfold NBTree.append
  split
  · exact ⟨fun _ => rfl, fun h => absurd rfl h, by simp⟩
  · split <;> exact ⟨fun h => by simp at h, fun _ => ⟨rfl, rfl⟩, by simp⟩

/-- The event append leaves the tree unchanged exactly on
`FAIL_BAD_VALUE`, otherwise appends the blob; it never reports
`FAIL_BAD_ID`. -/
theorem NBTree.append_event_cases (t : NBTree) (ts : Nat) (d : List Nat) (b : Bool) :
    ((t.append_event ts d b).2 = NBTreeAppendResult.FAIL_BAD_VALUE →
      (t.append_event ts d b).1 = t) ∧
    ((t.append_event ts d b).2 ≠ NBTreeAppendResult.FAIL_BAD_VALUE →
      (t.append_event ts d b).1.events = t.events ++ [(ts, d)] ∧
      (t.append_event ts d b).1.numeric = t.numeric) ∧
    (t.append_event ts d b).2 ≠ NBTreeAppendResult.FAIL_BAD_ID := by
  unfold NBTree.append_event
  split
  · exact ⟨fun _ => rfl, fun h => absurd rfl h, by simp⟩
  · split <;> exact ⟨fun h => by simp at h, fun _ => ⟨rfl, rfl⟩, by simp⟩

/-! ### Claim theorems -/

/-- Claim C8: the `SharedLock` and `UniqueLock` scoped-guard types are the
identical instantiation of `LockGuard` and both acquire the `RWLock`
through the exclusive `wrlock` operation on construction; `SharedLock`
never takes the shared `rdlock` path, which is a genuinely different
operation. -/
theorem c8_shared_lock_is_exclusive :
    SharedLock = UniqueLock ∧
    SharedLock.on_enter = RWLock.wrlock ∧
    UniqueLock.on_enter = RWLock.wrlock ∧
    SharedLock.on_enter ≠ RWLock.rdlock := by
  refine ⟨rfl, rfl, rfl, fun h => ?_⟩
  have h1 := congrFun h ⟨1, false⟩
  simp [SharedLock, RWLock.wrlock, RWLock.rdlock] at h1

/-- Claim C10: a sample whose payload type is neither `PAYLOAD_FLOAT` nor
`PAYLOAD_EVENT` makes `CStoreSession::write` return `FAIL_BAD_VALUE`
without appending to any tree, without touching the session cache, and
without modifying the `rescue_points` output. -/
theorem c10_session_write_bad_value (st : SessionState) (s : Sample)
    (rp : List Nat) (code : Nat)
    (h : s.payload.type = PayloadType.other code) :
    CStoreSession.write st s rp = ⟨NBTreeAppendResult.FAIL_BAD_VALUE, st, rp⟩ := by
  unfold CStoreSession.write
  rw [h]

/-- Witness for C10 at a concrete session state and sample. -/
theorem c10_witness :
    CStoreSession.write ⟨CS0, [7]⟩ SOther [5] =
      ⟨NBTreeAppendResult.FAIL_BAD_VALUE, ⟨CS0, [7]⟩, [5]⟩ :=
  c10_session_write_bad_value ⟨CS0, [7]⟩ SOther [5] 3 rfl

/-- Counterexample to C6: the timestamp token `4294967295` parses to the
unsigned value `2^32 - 1`, which is strictly below `2^32`, yet the
OpenTSDB `put` path keeps it unchanged as a nanosecond timestamp instead
of upconverting it from seconds (the code's threshold is `0xFFFFFFFF`,
i.e. `2^32 - 1`, not `2^32`). -/
theorem c6_cex :
    parseDigits ['4', '2', '9', '4', '9', '6', '7', '2', '9', '5'] =
      some 4294967295 ∧
    (4294967295 : Nat) < 2 ^ 32 ∧
    opentsdb_put_timestamp ['4', '2', '9', '4', '9', '6', '7', '2', '9', '5'] =
      TsDecision.nanos 4294967295 ∧
    TsDecision.nanos 4294967295 ≠ TsDecision.nanos (from_unix_time 4294967295) := by
  refine ⟨by decide, by decide, by decide, by decide⟩

/-- Claim C6 as amended: for every timestamp token of an OpenTSDB `put`
command that parses as a nonzero unsigned integer `n`, a value strictly
below `2^32 - 1` is interpreted as seconds since epoch and upconverted to
nanoseconds, while a value of `2^32 - 1` or more is used unchanged (a
token parsing to zero is treated as a parse failure and falls back to
ISO-8601 parsing). -/
theorem c6_amended (token : List Char) (n : Nat)
    (hp : parseDigits token = some n) (hn : 0 < n) :
    opentsdb_put_timestamp token =
      TsDecision.nanos (if n < 2 ^ 32 - 1 then n * 1000000000 else n) := by
  have h32 : (2 : Nat) ^ 32 - 1 = 4294967295 := by norm_num
  have hz : (n == 0) = false := by
    simp only [beq_eq_false_iff_ne, ne_eq]
    omega
  unfold opentsdb_put_timestamp
  rw [hp, h32]
  by_cases hlt : n < 4294967295 <;>
    simp [hz, hlt, from_unix_time]

/-- Witness for C6 (amended) at the token `1700000000`. -/
theorem c6_witness :
    opentsdb_put_timestamp
        ['1', '7', '0', '0', '0', '0', '0', '0', '0', '0'] =
      TsDecision.nanos
        (if 1700000000 < 2 ^ 32 - 1 then 1700000000 * 1000000000
         else 1700000000) :=
  c6_amended ['1', '7', '0', '0', '0', '0', '0', '0', '0', '0'] 1700000000
    (by decide) (by decide)

/-- Counterexample to C2: a sample whose id has a column but whose payload
type is neither float nor event is not appended to the column's tree —
`ColumnStore::write` returns `OK` and leaves the column table (and the
rescue points) completely unchanged, contradicting the claim that every
sample whose id has a column is appended. -/
theorem c2_cex :
    findColumn CS0 SOther.paramid = some T0 ∧
    (ColumnStore.write CS0 SOther [] none).res = NBTreeAppendResult.OK ∧
    (ColumnStore.write CS0 SOther [] none).columns = CS0 ∧
    (ColumnStore.write CS0 SOther [] none).rescue_points = [] := by
  refine ⟨by decide, by decide, by decide, by decide⟩

/-- Claim C2 as amended: for every float- or event-payload sample whose id
has a column, `ColumnStore::write` appends the sample to that column's
tree (tree unchanged exactly when the append fails with
`FAIL_BAD_VALUE`), fills the `rescue_points` output with the tree's new
root list exactly when the append returns `OK_FLUSH_NEEDED` and leaves it
unchanged for any other result, and never reports `FAIL_BAD_ID`; when no
column exists for the sample's id, write returns `FAIL_BAD_ID` and
nothing is modified.  A sample of any other payload type is not appended:
the store is left unchanged and the result is `OK`. -/
theorem c2_amended (cs : Columns) (s : Sample) (rp : List Nat)
    (cache : Option (List Nat)) (o : WriteOutcome)
    (ho : ColumnStore.write cs s rp cache = o) :
    (findColumn cs s.paramid = none →
      o = ⟨NBTreeAppendResult.FAIL_BAD_ID, cs, rp, cache⟩) ∧
    (∀ t, findColumn cs s.paramid = some t →
      o.res ≠ NBTreeAppendResult.FAIL_BAD_ID ∧
      ∃ t', findColumn o.columns s.paramid = some t' ∧
        (o.res = NBTreeAppendResult.OK_FLUSH_NEEDED →
          o.rescue_points = t'.get_roots) ∧
        (o.res ≠ NBTreeAppendResult.OK_FLUSH_NEEDED → o.rescue_points = rp) ∧
        (s.payload.type = PayloadType.float →
          (o.res ≠ NBTreeAppendResult.FAIL_BAD_VALUE →
            t'.numeric = t.numeric ++ [(s.timestamp, s.payload.float64)] ∧
            t'.events = t.events) ∧
          (o.res = NBTreeAppendResult.FAIL_BAD_VALUE → t' = t)) ∧
        (s.payload.type = PayloadType.event →
          (o.res ≠ NBTreeAppendResult.FAIL_BAD_VALUE →
            t'.events = t.events ++ [(s.timestamp, s.payload.data)] ∧
            t'.numeric = t.numeric) ∧
          (o.res = NBTreeAppendResult.FAIL_BAD_VALUE → t' = t)) ∧
        (∀ code, s.payload.type = PayloadType.other code →
          t' = t ∧ o.res = NBTreeAppendResult.OK)) := by
  subst ho
  constructor
  · intro hnone
    unfold ColumnStore.write
    rw [hnone]
  · intro t ht
    have hred : ColumnStore.write cs s rp cache =
        (let step :=
          match s.payload.type with
          | PayloadType.float => t.append s.timestamp s.payload.float64 false
          | PayloadType.event => t.append_event s.timestamp s.payload.data false
          | PayloadType.other _ => (t, NBTreeAppendResult.OK)
        ⟨step.2, updateColumn cs s.paramid step.1,
         if step.2 == NBTreeAppendResult.OK_FLUSH_NEEDED then step.1.get_roots
         else rp,
         cache.map (fun c => cacheInsert c s.paramid)⟩) := by
      unfold ColumnStore.write
      rw [ht]
    cases hty : s.payload.type with
    | float =>
      obtain ⟨hfail, hsucc, hnid⟩ :=
        NBTree.append_cases t s.timestamp s.payload.float64 false
      rcases hA : t.append s.timestamp s.payload.float64 false with ⟨t', r⟩
      rw [hA] at hfail hsucc hnid
      simp only at hfail hsucc hnid
      rw [hty, hA] at hred
      simp only at hred
      rw [hred]
      refine ⟨hnid, t', findColumn_updateColumn t' ht, ?_, ?_, ?_, ?_, ?_⟩
      · intro hr; simp only at hr; simp [hr]
      · intro hr
        simp only at hr
        have hbeq : (r == NBTreeAppendResult.OK_FLUSH_NEEDED) = false := by
          simpa using hr
        simp [hbeq]
      · exact fun _ => ⟨fun hr => hsucc hr, fun hr => hfail hr⟩
      · intro hev; cases hev
      · intro code hc; cases hc
    | event =>
      obtain ⟨hfail, hsucc, hnid⟩ :=
        NBTree.append_event_cases t s.timestamp s.payload.data false
      rcases hA : t.append_event s.timestamp s.payload.data false with ⟨t', r⟩
      rw [hA] at hfail hsucc hnid
      simp only at hfail hsucc hnid
      rw [hty, hA] at hred
      simp only at hred
      rw [hred]
      refine ⟨hnid, t', findColumn_updateColumn t' ht, ?_, ?_, ?_, ?_, ?_⟩
      · intro hr; simp only at hr; simp [hr]
      · intro hr
        simp only at hr
        have hbeq : (r == NBTreeAppendResult.OK_FLUSH_NEEDED) = false := by
          simpa using hr
        simp [hbeq]
      · intro hfl; cases hfl
      · exact fun _ => ⟨fun hr => hsucc hr, fun hr => hfail hr⟩
      · intro code hc; cases hc
    | other code =>
      rw [hty] at hred
      simp only at hred
      rw [hred]
      refine ⟨by simp, t, findColumn_updateColumn t ht, ?_, ?_, ?_, ?_, ?_⟩
      · intro hr; simp at hr
      · intro _; simp
      · intro hfl; cases hfl
      · intro hev; cases hev
      · exact fun _ _ => ⟨rfl, rfl⟩

/-- Witness for C2 (amended) at a concrete store and float sample. -/
theorem c2_witness :
    (findColumn CS0 (7 : Nat) = none →
      ColumnStore.write CS0 ⟨7, 4, ⟨PayloadType.float, 44, []⟩⟩ [] none =
        ⟨NBTreeAppendResult.FAIL_BAD_ID, CS0, [], none⟩) ∧
    (∀ t, findColumn CS0 (7 : Nat) = some t →
      (ColumnStore.write CS0 ⟨7, 4, ⟨PayloadType.float, 44, []⟩⟩ [] none).res ≠
        NBTreeAppendResult.FAIL_BAD_ID ∧
      ∃ t', findColumn
          (ColumnStore.write CS0 ⟨7, 4, ⟨PayloadType.float, 44, []⟩⟩ [] none).columns
          (7 : Nat) = some t' ∧
        ((ColumnStore.write CS0 ⟨7, 4, ⟨PayloadType.float, 44, []⟩⟩ [] none).res =
            NBTreeAppendResult.OK_FLUSH_NEEDED →
          (ColumnStore.write CS0 ⟨7, 4, ⟨PayloadType.float, 44, []⟩⟩ [] none).rescue_points =
            t'.get_roots) ∧
        ((ColumnStore.write CS0 ⟨7, 4, ⟨PayloadType.float, 44, []⟩⟩ [] none).res ≠
            NBTreeAppendResult.OK_FLUSH_NEEDED →
          (ColumnStore.write CS0 ⟨7, 4, ⟨PayloadType.float, 44, []⟩⟩ [] none).rescue_points =
            []) ∧
        ((⟨7, 4, ⟨PayloadType.float, 44, []⟩⟩ : Sample).payload.type = PayloadType.float →
          ((ColumnStore.write CS0 ⟨7, 4, ⟨PayloadType.float, 44, []⟩⟩ [] none).res ≠
              NBTreeAppendResult.FAIL_BAD_VALUE →
            t'.numeric = t.numeric ++ [(4, 44)] ∧ t'.events = t.events) ∧
          ((ColumnStore.write CS0 ⟨7, 4, ⟨PayloadType.float, 44, []⟩⟩ [] none).res =
              NBTreeAppendResult.FAIL_BAD_VALUE → t' = t)) ∧
        ((⟨7, 4, ⟨PayloadType.float, 44, []⟩⟩ : Sample).payload.type = PayloadType.event →
          ((ColumnStore.write CS0 ⟨7, 4, ⟨PayloadType.float, 44, []⟩⟩ [] none).res ≠
              NBTreeAppendResult.FAIL_BAD_VALUE →
            t'.events = t.events ++ [(4, [])] ∧ t'.numeric = t.numeric) ∧
          ((ColumnStore.write CS0 ⟨7, 4, ⟨PayloadType.float, 44, []⟩⟩ [] none).res =
              NBTreeAppendResult.FAIL_BAD_VALUE → t' = t)) ∧
        (∀ code, (⟨7, 4, ⟨PayloadType.float, 44, []⟩⟩ : Sample).payload.type =
            PayloadType.other code →
          t' = t ∧
          (ColumnStore.write CS0 ⟨7, 4, ⟨PayloadType.float, 44, []⟩⟩ [] none).res =
            NBTreeAppendResult.OK)) :=
  c2_amended CS0 ⟨7, 4, ⟨PayloadType.float, 44, []⟩⟩ [] none
    (ColumnStore.write CS0 ⟨7, 4, ⟨PayloadType.float, 44, []⟩⟩ [] none) rfl

/-- Claim C3, evaluated at the failing input: replaying an event sample
through `ColumnStore::recovery_write` does not append the event blob;
the routine unconditionally appends the `float64` union field as a
numeric point (the event list is untouched and the junk value 42 lands in
the numeric column), and so event records of the WAL are not re-applied
as the claim requires. -/
theorem c3_recovery_write_drops_events :
    SEvent.payload.type = PayloadType.event ∧
    SEvent.payload.data = [1, 2, 3] ∧
    (ColumnStore.recovery_write CS0 SEvent true).1 = NBTreeAppendResult.OK ∧
    (findColumn (ColumnStore.recovery_write CS0 SEvent true).2 7).map
      NBTree.events = some [] ∧
    (findColumn (ColumnStore.recovery_write CS0 SEvent true).2 7).map
      NBTree.numeric = some [(1, 10), (9, 42)] := by
  refine ⟨rfl, rfl, by decide, by decide, by decide⟩

/-- The operators an `iterate`-based read constructs for a list of ids:
one per id whose column exists and whose per-id constructor succeeds. -/
def builtOps {Op : Type} (cs : Columns) (fn : NBTree → Except Status Op)
    (ids : List Nat) : List Op :=
  ids.filterMap
    (fun id =>
      match findColumn cs id with
      | none => none
      | some t => (fn t).toOption)

/-- Counterexample to C9: for the `filter` operation, an id whose column
exists but which has no entry in the filter map makes the operation stop
with `BadArg`, even though a later id in the list has no column — so an
id list containing a column-less id does not always produce `NotFound`. -/
theorem c9_cex :
    findColumn CS0 8 = none ∧
    (ColumnStore.filter CS0 [7, 8] 0 100 []).1 = Status.badArg ∧
    Status.badArg ≠ Status.notFound := by
  refine ⟨by decide, by decide, by decide⟩

/-- Claim C9 as amended: for every read operation built on
`ColumnStore::iterate` and every ordered id list, if some requested id has
no column, and for every id before the first such id the column exists and
the per-id operator constructor succeeds, then the operation returns
`NotFound` and stops at that id, while the operators already constructed
for the earlier ids remain appended to the destination vector (one per
earlier id; the output is not rolled back).  When an earlier id's
constructor fails — for `filter`/`group_aggfilter`, an id with a column
but no filter entry — the operation instead stops there with that error
(`BadArg`). -/
theorem c9_amended {Op : Type} (cs : Columns) (pre post : List Nat)
    (bad : Nat) (fn : NBTree → Except Status Op)
    (hbad : findColumn cs bad = none)
    (hpre : ∀ id ∈ pre, ∃ t op, findColumn cs id = some t ∧ fn t = Except.ok op) :
    ColumnStore.iterate cs (pre ++ bad :: post) fn =
      (Status.notFound, builtOps cs fn pre) ∧
    (builtOps cs fn pre).length = pre.length := by
  induction pre with
  | nil =>
    constructor
    · simp only [List.nil_append, ColumnStore.iterate, hbad]
      rfl
    · rfl
  | cons id rest ih =>
    obtain ⟨t, op, hft, hfn⟩ := hpre id (List.mem_cons_self _ _)
    obtain ⟨ih1, ih2⟩ := ih (fun i hi => hpre i (List.mem_cons_of_mem _ hi))
    have hb : builtOps cs fn (id :: rest) = op :: builtOps cs fn rest := by
      simp only [builtOps, List.filterMap_cons, hft, hfn, Except.toOption]
    constructor
    · simp only [List.cons_append, ColumnStore.iterate, hft, hfn, List.append_eq]
      rw [ih1, hb]
    · rw [hb]
      simp [ih2]

/-- Witness for C9 (amended): a two-id scan over a table holding only the
first id returns `NotFound` with the first id's operator preserved. -/
theorem c9_witness :
    (ColumnStore.iterate CS0 [7, 8]
        (fun t => (Except.ok (t.search 1 3) : Except Status (List (Nat × Int)))) =
      (Status.notFound,
       builtOps CS0
         (fun t => (Except.ok (t.search 1 3) : Except Status (List (Nat × Int))))
         [7])) ∧
    (builtOps CS0
      (fun t => (Except.ok (t.search 1 3) : Except Status (List (Nat × Int))))
      [7]).length = 1 :=
  c9_amended CS0 [7] [] 8
    (fun t => (Except.ok (t.search 1 3) : Except Status (List (Nat × Int))))
    (by decide)
    (fun id hid => by
      rcases List.mem_cons.mp hid with rfl | hid
      · exact ⟨T0, T0.search 1 3, rfl, rfl⟩
      · cases hid)

/-- Claim C5: for every query execution (modelled by the push loop over the
operator batch results), the trace delivered to the `InternalCursor` ends
with exactly one terminating call — `complete` or `set_error` — and no
`put` occurs after it: the trace is a put-only prefix followed by a single
terminator. -/
theorem c5_cursor_contract (steps : List (Except Status (List Sample))) :
    (∃ pre t, runQuery steps = pre ++ [t] ∧ t.isTerminal = true ∧
      ∀ ev ∈ pre, ev.isTerminal = false) ∧
    (runQuery steps).countP CursorEvent.isTerminal = 1 := by
  have main : ∃ pre t, runQuery steps = pre ++ [t] ∧ t.isTerminal = true ∧
      ∀ ev ∈ pre, ev.isTerminal = false := by
    induction steps with
    | nil => exact ⟨[], CursorEvent.complete, rfl, rfl, by simp⟩
    | cons hd rest ih =>
      cases hd with
      | error st => exact ⟨[], CursorEvent.setError st, rfl, rfl, by simp⟩
      | ok batch =>
        obtain ⟨pre, t, heq, hterm, hpre⟩ := ih
        refine ⟨batch.map CursorEvent.put ++ pre, t, ?_, hterm, ?_⟩
        · simp only [runQuery, heq, List.append_assoc]
        · intro ev hev
          rcases List.mem_append.mp hev with h | h
          · obtain ⟨s, _, rfl⟩ := List.mem_map.mp h
            rfl
          · exact hpre ev h
  refine ⟨main, ?_⟩
  obtain ⟨pre, t, heq, hterm, hpre⟩ := main
  rw [heq, List.countP_append,
    List.countP_eq_zero.mpr (fun a ha => by simp [hpre a ha])]
  simp [List.countP_cons, hterm]

/-- A column whose numeric points are in strictly nondecreasing timestamp
order searches to a sorted ascending slice over `[b, e)` when `b < e`. -/
theorem NBTree.search_asc (t : NBTree) {b e : Nat} (hbe : b < e)
    (hwf : t.numeric.Pairwise (fun x y => x.1 ≤ y.1)) :
    (t.search b e).Pairwise (fun x y => x.1 ≤ y.1) ∧
    ∀ x, x ∈ t.search b e ↔ x ∈ t.numeric ∧ b ≤ x.1 ∧ x.1 < e := by
  unfold NBTree.search
  rw [if_pos hbe]
  refine ⟨hwf.filter _, ?_⟩
  intro x
  simp [List.mem_filter]

/-- A column whose numeric points are in nondecreasing timestamp order
searches to a sorted descending slice over `(e, b]` when `b > e`. -/
theorem NBTree.search_desc (t : NBTree) {b e : Nat} (heb : e < b)
    (hwf : t.numeric.Pairwise (fun x y => x.1 ≤ y.1)) :
    (t.search b e).Pairwise (fun x y => y.1 ≤ x.1) ∧
    ∀ x, x ∈ t.search b e ↔ x ∈ t.numeric ∧ e < x.1 ∧ x.1 ≤ b := by
  unfold NBTree.search
  rw [if_neg (by omega)]
  constructor
  · rw [List.pairwise_reverse]
    exact hwf.filter _
  · intro x
    simp [List.mem_filter]

/-- Claim C1: for every series (whose stored points are in nondecreasing
timestamp order, the append invariant) and every pair of timestamps, each
operator returned by a successful `ColumnStore::scan` is the `search` of
the requested column and returns samples ordered by timestamp — ascending
when `begin < end`, descending when `begin > end` — containing exactly the
stored timestamps of `[begin, end)` in the ascending case and of
`(end, begin]` in the descending case. -/
theorem c1_scan_ordering (cs : Columns) (ids : List Nat) (b e : Nat)
    (ops : List (List (Nat × Int)))
    (hwf : ∀ p ∈ cs, p.2.numeric.Pairwise (fun x y => x.1 ≤ y.1))
    (hscan : ColumnStore.scan cs ids b e = (Status.ok, ops)) :
    ∀ op ∈ ops, ∃ id t, id ∈ ids ∧ findColumn cs id = some t ∧
      op = t.search b e ∧
      (b < e → op.Pairwise (fun x y => x.1 ≤ y.1) ∧
        ∀ x, x ∈ op ↔ x ∈ t.numeric ∧ b ≤ x.1 ∧ x.1 < e) ∧
      (e < b → op.Pairwise (fun x y => y.1 ≤ x.1) ∧
        ∀ x, x ∈ op ↔ x ∈ t.numeric ∧ e < x.1 ∧ x.1 ≤ b) := by
  induction ids generalizing ops with
  | nil =>
    simp only [ColumnStore.scan, ColumnStore.iterate] at hscan
    injection hscan with h1 h2
    subst h2
    intro op hop
    cases hop
  | cons id rest ih =>
    simp only [ColumnStore.scan, ColumnStore.iterate] at hscan
    cases hfc : findColumn cs id with
    | none =>
      rw [hfc] at hscan
      injection hscan with h1 h2
      cases h1
    | some t =>
      rw [hfc] at hscan
      simp only at hscan
      injection hscan with h1 h2
      subst h2
      intro op hop
      rcases List.mem_cons.mp hop with rfl | hop
      · refine ⟨id, t, List.mem_cons_self _ _, hfc, rfl, ?_, ?_⟩
        · exact fun hbe => NBTree.search_asc t hbe (hwf (id, t) (findColumn_mem hfc))
        · exact fun heb => NBTree.search_desc t heb (hwf (id, t) (findColumn_mem hfc))
      · have hsc : ColumnStore.scan cs rest b e =
            (Status.ok,
             (ColumnStore.iterate cs rest
               (fun t => Except.ok (t.search b e))).2) := by
          unfold ColumnStore.scan
          exact Prod.ext h1 rfl
        obtain ⟨id', t', hid', hft', hop', hprops⟩ := ih _ hsc op hop
        exact ⟨id', t', List.mem_cons_of_mem _ hid', hft', hop', hprops⟩

/-- Witness for C1 at a concrete one-column store, the ascending range
`[1, 3)` and the single operator the scan returns. -/
theorem c1_witness :
    ∃ id t, id ∈ [7] ∧ findColumn CS0 id = some t ∧
      [((1 : Nat), (10 : Int))] = t.search 1 3 ∧
      (1 < 3 →
        List.Pairwise (fun x y => x.1 ≤ y.1) [((1 : Nat), (10 : Int))] ∧
        ∀ x, x ∈ [((1 : Nat), (10 : Int))] ↔
          x ∈ t.numeric ∧ 1 ≤ x.1 ∧ x.1 < 3) ∧
      (3 < 1 →
        List.Pairwise (fun x y => y.1 ≤ x.1) [((1 : Nat), (10 : Int))] ∧
        ∀ x, x ∈ [((1 : Nat), (10 : Int))] ↔
          x ∈ t.numeric ∧ 3 < x.1 ∧ x.1 ≤ 1) :=
  c1_scan_ordering CS0 [7] 1 3 [[(1, 10)]]
    (fun p hp => by
      rcases List.mem_cons.mp hp with rfl | hp
      · decide
      · cases hp)
    (by decide)
    [(1, 10)] (List.mem_singleton.mpr rfl)

/-- The fold of a nonempty point list produces an aggregate record. -/
theorem aggregateSamples_of_ne_nil (xs : List (Nat × Int)) (h : xs ≠ []) :
    ∃ a, aggregateSamples xs = some a := by
  have aux : ∀ (ys : List (Nat × Int)) (a : AggregationResult),
      ∃ r, ys.foldl
        (fun acc p =>
          match acc with
          | none => some (AggregationResult.single p.1 p.2)
          | some a => some (a.add p.1 p.2))
        (some a) = some r := by
    intro ys
    induction ys with
    | nil => exact fun a => ⟨a, rfl⟩
    | cons z zs ih => exact fun a => ih (a.add z.1 z.2)
  cases xs with
  | nil => exact absurd rfl h
  | cons y ys => exact aux ys (AggregationResult.single y.1 y.2)

/-- Counterexample to C4: on the first write of the repository's
group-aggregate test (`ts = 100000`, range `[100000, 10100000)`,
`step = 4000000`) the emitted bucket's timestamp is 100000, whereas the
claim's formula `floor(ts / step) * step` yields 0 — bucket boundaries
are not anchored at 0. -/
theorem c4_cex :
    (CT4.group_aggregate 100000 10100000 4000000).map Prod.fst = [100000] ∧
    (100000 : Nat) / 4000000 * 4000000 = 0 ∧
    (100000 : Nat) ≠ 0 := by
  refine ⟨by decide, by decide, by decide⟩

/-- The modelled group-aggregate reproduces the expected output of the
repository's `Test_storage_group_aggregate_query_0` on a slice of its
data set: buckets at 100000, 4100000 and 8100000 with minima 1000, 41000
and 81000. -/
theorem group_aggregate_matches_storage_test :
    (CT4F.group_aggregate 100000 10100000 4000000).map
        (fun p => (p.1, p.2.vmin)) =
      [(100000, 1000), (4100000, 41000), (8100000, 81000)] := by
  decide

/-- Claim C4 as amended: for every group-aggregate over `[begin, end)` with
step `s > 0`, each emitted bucket's timestamp equals `begin + k * s` for
some bucket index `k` (and lies below `end`), i.e. bucket boundaries are
anchored at the range's begin timestamp, and every stored sample with
timestamp in `[begin, end)` is covered by the emitted bucket whose
timestamp is `begin + floor((ts - begin) / s) * s`. -/
theorem c4_amended (t : NBTree) (b e step : Nat) (hstep : 0 < step) :
    (∀ p ∈ t.group_aggregate b e step, ∃ k, p.1 = b + k * step ∧ p.1 < e) ∧
    (∀ x ∈ t.numeric, b ≤ x.1 → x.1 < e →
      ∃ a, (b + (x.1 - b) / step * step, a) ∈ t.group_aggregate b e step) := by
  constructor
  · intro p hp
    obtain ⟨k, hk, hfk⟩ := List.mem_filterMap.mp hp
    have hkN : k < (e - b + step - 1) / step := List.mem_range.mp hk
    simp only at hfk
    split at hfk
    · cases hfk
    · rename_i a hA
      injection hfk with h1
      subst h1
      refine ⟨k, rfl, ?_⟩
      show b + k * step < e
      have hk1 : k + 1 ≤ (e - b + step - 1) / step := hkN
      have hm : (k + 1) * step ≤ (e - b + step - 1) / step * step :=
        Nat.mul_le_mul_right _ hk1
      have hd : (e - b + step - 1) / step * step ≤ e - b + step - 1 :=
        Nat.div_mul_le_self _ _
      have hexp : (k + 1) * step = k * step + step := by ring
      omega
  · intro x hx hbx hxe
    have hk : (x.1 - b) / step * step ≤ x.1 - b := Nat.div_mul_le_self _ _
    have hmod : (x.1 - b) % step < step := Nat.mod_lt _ hstep
    have hdm : step * ((x.1 - b) / step) + (x.1 - b) % step = x.1 - b :=
      Nat.div_add_mod _ _
    have hcomm : step * ((x.1 - b) / step) = (x.1 - b) / step * step :=
      Nat.mul_comm _ _
    have hkN : (x.1 - b) / step < (e - b + step - 1) / step := by
      have h1 : x.1 - b ≤ e - b - 1 := by omega
      have h2 : (x.1 - b) / step ≤ (e - b - 1) / step :=
        Nat.div_le_div_right h1
      have h3 : e - b + step - 1 = (e - b - 1) + step := by omega
      have h4 : ((e - b - 1) + step) / step = (e - b - 1) / step + 1 :=
        Nat.add_div_right _ hstep
      have h5 : (e - b + step - 1) / step = (e - b - 1 + step) / step := by
        rw [h3]
      omega
    have hmem : x ∈ t.numeric.filter
        (fun q => decide (b + (x.1 - b) / step * step ≤ q.1 ∧
          q.1 < Min.min (b + (x.1 - b) / step * step + step) e)) := by
      refine List.mem_filter.mpr ⟨hx, ?_⟩
      simp only [decide_eq_true_eq, lt_min_iff]
      omega
    obtain ⟨a, hA⟩ := aggregateSamples_of_ne_nil _
      (List.ne_nil_of_mem hmem)
    refine ⟨a, List.mem_filterMap.mpr
      ⟨(x.1 - b) / step, List.mem_range.mpr hkN, ?_⟩⟩
    simp only [hA]

/-- Witness for C4 (amended) at the concrete test column and range. -/
theorem c4_witness :
    (∀ p ∈ CT4.group_aggregate 100000 10100000 4000000,
      ∃ k, p.1 = 100000 + k * 4000000 ∧ p.1 < 10100000) ∧
    (∀ x ∈ CT4.numeric, 100000 ≤ x.1 → x.1 < 10100000 →
      ∃ a, (100000 + (x.1 - 100000) / 4000000 * 4000000, a) ∈
        CT4.group_aggregate 100000 10100000 4000000) :=
  c4_amended CT4 100000 10100000 4000000 (by decide)

/-- Inserting an id into the working set corresponds to a `Finset`
insertion. -/
theorem cacheInsert_toFinset (c : List Nat) (id : Nat) :
    (cacheInsert c id).toFinset = insert id c.toFinset := by
  unfold cacheInsert
  split
  · rename_i h
    rw [Finset.insert_eq_self.mpr (List.mem_toFinset.mpr h)]
  · rw [List.toFinset_append]
    simp only [List.toFinset_cons, List.toFinset_nil, insert_emptyc_eq]
    rw [Finset.union_comm, ← Finset.insert_eq]

/-- Insert-if-absent preserves the no-duplicates invariant. -/
theorem cacheInsert_nodup (c : List Nat) (id : Nat) (h : c.Nodup) :
    (cacheInsert c id).Nodup := by
  unfold cacheInsert
  split
  · exact h
  · rename_i hni
    simp [List.nodup_append, h, hni]

/-- The elements accumulated by `foldIns` are the union of the initial
working set and the written ids. -/
theorem foldIns_toFinset (ids : List Nat) : ∀ c : List Nat,
    (foldIns c ids).toFinset = c.toFinset ∪ ids.toFinset := by
  induction ids with
  | nil => intro c; simp [foldIns]
  | cons id rest ih =>
    intro c
    have h1 : foldIns c (id :: rest) = foldIns (cacheInsert c id) rest := rfl
    rw [h1, ih (cacheInsert c id), cacheInsert_toFinset]
    simp only [List.toFinset_cons]
    rw [Finset.insert_union, Finset.union_insert]

/-- `foldIns` preserves the no-duplicates invariant. -/
theorem foldIns_nodup (ids : List Nat) : ∀ c : List Nat, c.Nodup →
    (foldIns c ids).Nodup := by
  induction ids with
  | nil => exact fun c h => h
  | cons id rest ih =>
    exact fun c h => ih (cacheInsert c id) (cacheInsert_nodup c id h)

/-- With the WAL disabled no evictions take place: the block-store append
count is the size of the final working set, the distinct written ids. -/
theorem runAppends_false (evs : List WalEvent) : ∀ c : List Nat,
    runAppends false evs c = (foldIns c (writesOf evs)).length := by
  induction evs with
  | nil => intro c; rfl
  | cons ev rest ih =>
    intro c
    cases ev with
    | write id => exact ih (cacheInsert c id)
    | evict => exact ih c

/-- With the WAL enabled the append count is at least the number of
distinct series touched (each is flushed at least once). -/
theorem runAppends_true_ge (evs : List WalEvent) : ∀ c : List Nat, c.Nodup →
    (c.toFinset ∪ (writesOf evs).toFinset).card ≤ runAppends true evs c := by
  induction evs with
  | nil =>
    intro c h
    have : runAppends true [] c = c.length := rfl
    rw [this, ← List.toFinset_card_of_nodup h]
    simp [writesOf]
  | cons ev rest ih =>
    intro c h
    cases ev with
    | write id =>
      have h1 : runAppends true (WalEvent.write id :: rest) c =
          runAppends true rest (cacheInsert c id) := rfl
      rw [h1]
      have h2 := ih (cacheInsert c id) (cacheInsert_nodup c id h)
      rw [cacheInsert_toFinset] at h2
      have h3 : writesOf (WalEvent.write id :: rest) = id :: writesOf rest := rfl
      rw [h3]
      simp only [List.toFinset_cons]
      rw [Finset.union_insert, ← Finset.insert_union]
      exact h2
    | evict =>
      have h1 : runAppends true (WalEvent.evict :: rest) c =
          c.length + runAppends true rest [] := rfl
      have h3 : writesOf (WalEvent.evict :: rest) = writesOf rest := rfl
      rw [h1, h3]
      have h2 := ih [] List.nodup_nil
      simp only [List.toFinset_nil, Finset.empty_union] at h2
      calc (c.toFinset ∪ (writesOf rest).toFinset).card
          ≤ c.toFinset.card + (writesOf rest).toFinset.card :=
            Finset.card_union_le _ _
        _ ≤ c.length + runAppends true rest [] := by
            have := List.toFinset_card_le c
            omega

/-- With the WAL enabled, the series flushed before an eviction barrier
and the series flushed after it are counted separately. -/
theorem runAppends_true_split (l₂ : List WalEvent) (l₁ : List WalEvent) :
    ∀ c : List Nat, c.Nodup →
    (c.toFinset ∪ (writesOf l₁).toFinset).card +
      (writesOf l₂).toFinset.card ≤
      runAppends true (l₁ ++ WalEvent.evict :: l₂) c := by
  induction l₁ with
  | nil =>
    intro c h
    have h1 : runAppends true ([] ++ WalEvent.evict :: l₂) c =
        c.length + runAppends true l₂ [] := rfl
    rw [h1]
    have h2 := runAppends_true_ge l₂ [] List.nodup_nil
    simp only [List.toFinset_nil, Finset.empty_union] at h2
    have h4 : c.toFinset.card = c.length := List.toFinset_card_of_nodup h
    have h5 : (c.toFinset ∪ (writesOf ([] : List WalEvent)).toFinset).card =
        c.toFinset.card := by
      simp [writesOf]
    rw [h5]
    omega
  | cons ev rest ih =>
    intro c h
    cases ev with
    | write id =>
      have h1 : runAppends true ((WalEvent.write id :: rest) ++
          WalEvent.evict :: l₂) c =
          runAppends true (rest ++ WalEvent.evict :: l₂) (cacheInsert c id) := rfl
      rw [h1]
      have h2 := ih (cacheInsert c id) (cacheInsert_nodup c id h)
      rw [cacheInsert_toFinset] at h2
      have h3 : writesOf (WalEvent.write id :: rest) = id :: writesOf rest := rfl
      rw [h3]
      simp only [List.toFinset_cons]
      rw [Finset.union_insert, ← Finset.insert_union]
      exact h2
    | evict =>
      have h1 : runAppends true ((WalEvent.evict :: rest) ++
          WalEvent.evict :: l₂) c =
          c.length + runAppends true (rest ++ WalEvent.evict :: l₂) [] := rfl
      have h3 : writesOf (WalEvent.evict :: rest) = writesOf rest := rfl
      rw [h1, h3]
      have h2 := ih [] List.nodup_nil
      simp only [List.toFinset_nil, Finset.empty_union] at h2
      have h4 : (c.toFinset ∪ (writesOf rest).toFinset).card ≤
          c.toFinset.card + (writesOf rest).toFinset.card :=
        Finset.card_union_le _ _
      have h5 := List.toFinset_card_le c
      omega

/-- Claim C7: for a batched workload in which some series still has writes
after an eviction barrier (which is what happens when the total series
cardinality exceeds the working-set size, so an inactive-but-unfinished
series gets evicted): with the WAL enabled the evictions flush series to
disk and the total number of block-store appends strictly exceeds the
series cardinality; with the WAL disabled, series are kept in memory until
the final close and the total number of block-store appends equals the
series cardinality. -/
theorem c7_wal_write_amplification (evs l₁ l₂ : List WalEvent) (id : Nat)
    (hsplit : evs = l₁ ++ WalEvent.evict :: l₂)
    (h₁ : id ∈ writesOf l₁) (h₂ : id ∈ writesOf l₂) :
    blockAppends false evs = cardinality evs ∧
    cardinality evs < blockAppends true evs := by
  constructor
  · exact runAppends_false evs []
  · subst hsplit
    have hw : writesOf (l₁ ++ WalEvent.evict :: l₂) =
        writesOf l₁ ++ writesOf l₂ := by
      unfold writesOf
      rw [List.filterMap_append]
      rfl
    have hcard : cardinality (l₁ ++ WalEvent.evict :: l₂) =
        ((writesOf l₁).toFinset ∪ (writesOf l₂).toFinset).card := by
      unfold cardinality
      rw [hw,
        ← List.toFinset_card_of_nodup
          (foldIns_nodup (writesOf l₁ ++ writesOf l₂) [] List.nodup_nil),
        foldIns_toFinset]
      simp [List.toFinset_append]
    have hsum := runAppends_true_split l₂ l₁ [] List.nodup_nil
    simp only [List.toFinset_nil, Finset.empty_union] at hsum
    have hinter : 0 < ((writesOf l₁).toFinset ∩ (writesOf l₂).toFinset).card :=
      Finset.card_pos.mpr
        ⟨id, Finset.mem_inter.mpr
          ⟨List.mem_toFinset.mpr h₁, List.mem_toFinset.mpr h₂⟩⟩
    have hcui := Finset.card_union_add_card_inter
      (writesOf l₁).toFinset (writesOf l₂).toFinset
    rw [hcard]
    unfold blockAppends
    omega

/-- Witness for C7: a workload that writes series 1, evicts, and writes
series 1 again makes two appends with the WAL enabled against a
cardinality of one, and exactly one append with the WAL disabled. -/
theorem c7_witness :
    blockAppends false
        [WalEvent.write 1, WalEvent.evict, WalEvent.write 1] =
      cardinality [WalEvent.write 1, WalEvent.evict, WalEvent.write 1] ∧
    cardinality [WalEvent.write 1, WalEvent.evict, WalEvent.write 1] <
      blockAppends true [WalEvent.write 1, WalEvent.evict, WalEvent.write 1] :=
  c7_wal_write_amplification
    [WalEvent.write 1, WalEvent.evict, WalEvent.write 1]
    [WalEvent.write 1] [WalEvent.write 1] 1 rfl (by decide) (by decide)

end Stdb
